import Mathlib

/-!
Verification development for the tiny-tastes-adk recipe pipeline
(`src/app/agent.py`, `src/app/image_utils.py`).

The Python source wires a generate / critique / refine loop around an agent
framework.  The logic owned by the repository is:

* the escalation gate (`EscalationChecker._run_async_impl`),
* the citation ledger (`collect_research_sources_callback`),
* the loop wiring (`recipe_creation_pipeline`: a loop over
  `[pediatrician_critic_agent, EscalationChecker, recipe_refiner_agent]`,
  bounded by `max_iterations`, where only the refiner carries the ledger
  callback as `after_agent_callback`),
* the post-processing of generated recipes
  (`recipe_generator_postprocessor`), and
* the image helper (`generate_ingredient_image`).

Those parts are embedded below as executable Lean functions; external LLM /
API calls are modelled as script parameters (their possible outcomes), and
Python floats are modelled as rationals.
-/

/-- Association-list lookup, mirroring Python `dict[key]` / `key in dict`
(first binding wins; the dictionaries built by the source have unique keys). -/
def alookup {κ α : Type} [DecidableEq κ] (k : κ) : List (κ × α) → Option α
  | [] => none
  | (k', v) :: rest => if k = k' then some v else alookup k rest

/-- JSON-like values, modelling the loosely-typed Python dicts / pydantic
payloads moved through the agent state. Numbers are modelled as rationals. -/
inductive Json where
  | null
  | bool (b : Bool)
  | num (q : ℚ)
  | str (s : String)
  | arr (items : List Json)
  | obj (fields : List (String × Json))

/-- Python truthiness of a JSON value (`if not x`). -/
def Json.truthy : Json → Bool
  | .null => false
  | .bool b => b
  | .num q => q != 0
  | .str s => !s.isEmpty
  | .arr l => !l.isEmpty
  | .obj l => !l.isEmpty

/-- Python `x == "lit"` for a JSON value against a string literal. -/
def Json.isStrEq (j : Json) (s : String) : Bool :=
  match j with
  | .str t => t == s
  | _ => false

/-- Python dict update `d[k] = v`: replace the value in place when the key is
present, append the binding otherwise (insertion order preserved). -/
def setKey : List (String × Json) → String → Json → List (String × Json)
  | [], k, v => [(k, v)]
  | (k', v') :: rest, k, v =>
      if k = k' then (k, v) :: rest else (k', v') :: setKey rest k v

-- ### Evaluation gate (`EscalationChecker._run_async_impl`, agent.py 94-107)

/-- The pediatrician evaluation as stored in session state: a dict, or absent. -/
abbrev Evaluation := List (String × Json)

/-- `EscalationChecker._run_async_impl` (agent.py 97-107): escalate (stop the
loop) iff `evaluation_result and evaluation_result.get("grade") == "pass"`.
`none` models a missing `pediatrician_evaluation` session key; an empty dict is
falsy in Python and also does not escalate. -/
def escalation_checker (evaluation : Option Evaluation) : Bool :=
  match evaluation with
  | none => false
  | some d =>
      !d.isEmpty &&
        (match alookup "grade" d with
         | some v => v.isStrEq "pass"
         | none => false)

-- ### Citation ledger (`collect_research_sources_callback`, agent.py 111-170)

/-- `chunk.web` payload (uri / title / domain), agent.py 134-147. -/
structure Web where
  uri : String
  title : String
  domain : String
deriving DecidableEq, Repr

/-- One grounding chunk; `web` may be absent (agent.py 132). -/
structure GroundingChunk where
  web : Option Web
deriving DecidableEq, Repr

/-- `support.segment` (agent.py 162). -/
structure Segment where
  text : String
deriving DecidableEq, Repr

/-- One grounding support record (agent.py 153-162); every field may be
absent in the upstream payload. -/
structure GroundingSupport where
  confidence_scores : Option (List ℚ)
  grounding_chunk_indices : Option (List Nat)
  segment : Option Segment
deriving DecidableEq, Repr

/-- `event.grounding_metadata` (agent.py 128, 152). -/
structure GroundingMetadata where
  grounding_chunks : List GroundingChunk
  grounding_supports : Option (List GroundingSupport)
deriving DecidableEq, Repr

/-- A session event; only its grounding metadata matters to the ledger. -/
structure Event where
  grounding_metadata : Option GroundingMetadata
deriving DecidableEq, Repr

/-- An entry of `supported_claims` (agent.py 163-168). -/
structure SupportedClaim where
  text_segment : String
  confidence : ℚ
deriving DecidableEq, Repr

/-- A deduplicated source entry (agent.py 143-149). -/
structure Source where
  short_id : String
  title : String
  url : String
  domain : String
  supported_claims : List SupportedClaim
deriving DecidableEq, Repr

/-- The persistent ledger state (`callback_context.state`, agent.py 124-125,
169-170): `url_to_short_id` and `sources` as insertion-ordered dicts. -/
structure LedgerState where
  url_to_short_id : List (String × String)
  sources : List (String × Source)
deriving DecidableEq, Repr

/-- The empty ledger (fresh session state). -/
def emptyLedger : LedgerState := ⟨[], []⟩

/-- Scan state while one callback call runs: the two dicts, the running
`id_counter` (agent.py 126, 150) and the per-event `chunks_info` dict
(agent.py 130, 151), keyed by the chunk's enumerate index. -/
structure Scan where
  urlMap : List (String × String)
  srcs : List (String × Source)
  counter : Nat
  chunksInfo : List (Nat × String)
deriving DecidableEq, Repr

/-- `sources[short_id]["supported_claims"].append(claim)` (agent.py 163-168):
the value stored under `sid` gains one claim; every other entry is unchanged. -/
def appendClaim : List (String × Source) → String → SupportedClaim →
    List (String × Source)
  | [], _, _ => []
  | (k, v) :: rest, sid, c =>
      (if k = sid then
        (k, { v with supported_claims := v.supported_claims ++ [c] })
      else (k, v)) :: appendClaim rest sid c

/-- The chunk loop (agent.py 131-151): `for idx, chunk in enumerate(...)`.
A chunk without `web` is skipped; a fresh url allocates `src-{id_counter}`
and a new `sources` entry; `chunks_info[idx]` records the short id.
The title falls back exactly as the source writes it (agent.py 135-139). -/
def scanChunks (st : Scan) : Nat → List GroundingChunk → Scan
  | _, [] => st
  | idx, c :: rest =>
      let st' : Scan :=
        match c.web with
        | none => st
        | some w =>
            let url := w.uri
            let title := if w.title ≠ w.domain then w.title else w.domain
            match alookup url st.urlMap with
            | some sid => { st with chunksInfo := st.chunksInfo ++ [(idx, sid)] }
            | none =>
                let sid := "src-" ++ toString st.counter
                { urlMap := st.urlMap ++ [(url, sid)]
                  srcs := st.srcs ++ [(sid, ⟨sid, title, url, w.domain, []⟩)]
                  counter := st.counter + 1
                  chunksInfo := st.chunksInfo ++ [(idx, sid)] }
      scanChunks st' (idx + 1) rest

/-- The inner support loop (agent.py 156-168):
`for i, chunk_idx in enumerate(chunk_indices)`. An index not resolved in
`chunks_info` is skipped; the confidence is `confidence_scores[i]` when
position `i` has a score and `0.5` otherwise; the text segment defaults to
the empty string. -/
def recordIndices (info : List (Nat × String)) (support : GroundingSupport) :
    Nat → List Nat → List (String × Source) → List (String × Source)
  | _, [], srcs => srcs
  | i, chunkIdx :: rest, srcs =>
      let srcs' :=
        match alookup chunkIdx info with
        | none => srcs
        | some sid =>
            let scores := support.confidence_scores.getD []
            let confidence := scores.getD i ((1 : ℚ) / 2)
            let text_segment :=
              match support.segment with
              | some seg => seg.text
              | none => ""
            appendClaim srcs sid ⟨text_segment, confidence⟩
      recordIndices info support (i + 1) rest srcs'

/-- The support loop (agent.py 153-168): each support's (possibly absent)
`grounding_chunk_indices` are walked with `recordIndices`. -/
def recordSupports (info : List (Nat × String)) :
    List GroundingSupport → List (String × Source) → List (String × Source)
  | [], srcs => srcs
  | sup :: rest, srcs =>
      recordSupports info rest
        (recordIndices info sup 0 (sup.grounding_chunk_indices.getD []) srcs)

/-- Processing of one session event (agent.py 127-168): skipped unless it has
grounding metadata with a non-empty chunk list; `chunks_info` starts empty for
each event; supports run only when `grounding_supports` is truthy. -/
def processEvent (st : Scan) (e : Event) : Scan :=
  match e.grounding_metadata with
  | none => st
  | some md =>
      if md.grounding_chunks.isEmpty then st
      else
        let cs := scanChunks { st with chunksInfo := [] } 0 md.grounding_chunks
        let srcs' :=
          match md.grounding_supports with
          | none => cs.srcs
          | some sups =>
              if sups.isEmpty then cs.srcs
              else recordSupports cs.chunksInfo sups cs.srcs
        { cs with srcs := srcs' }

/-- The event loop of the callback (agent.py 127). -/
def processEvents : Scan → List Event → Scan
  | st, [] => st
  | st, e :: rest => processEvents (processEvent st e) rest

/-- One invocation of `collect_research_sources_callback` (agent.py 111-170):
reads the two dicts from state, sets `id_counter = len(url_to_short_id) + 1`,
walks `session.events`, and writes the dicts back.  `events` is the full
event list of the session at call time (the source iterates `session.events`,
not just the newest events). -/
def collect_research_sources_callback (st : LedgerState) (events : List Event) :
    LedgerState :=
  let fin := processEvents
    ⟨st.url_to_short_id, st.sources, st.url_to_short_id.length + 1, []⟩ events
  ⟨fin.urlMap, fin.srcs⟩

/-- A sequence of callback invocations within one session: call `k` receives
the whole accumulated event history (`session.events`), to which its batch of
new events has just been appended. -/
def runSession : LedgerState → List Event → List (List Event) → LedgerState
  | st, _, [] => st
  | st, past, batch :: rest =>
      let events := past ++ batch
      runSession (collect_research_sources_callback st events) events rest

/-- A sequence of callback invocations starting from a fresh session state,
each with an arbitrary event list. -/
def runCalls : LedgerState → List (List Event) → LedgerState
  | st, [] => st
  | st, evs :: rest => runCalls (collect_research_sources_callback st evs) rest

-- ### Fallible rendering of the ledger callback
-- The Python body has exactly two operations that can raise: the dict access
-- `sources[short_id]` (KeyError when the id is unknown) and the list access
-- `confidence_scores[i]` (IndexError, guarded by the source's own
-- `if i < len(confidence_scores)`).  The `Except` rendering below makes the
-- first explicit so that "completes without raising" is a real statement.

/-- `sources[short_id]` followed by the append: KeyError when absent. -/
def appendClaimE (srcs : List (String × Source)) (sid : String)
    (c : SupportedClaim) : Except String (List (String × Source)) :=
  match alookup sid srcs with
  | some _ => .ok (appendClaim srcs sid c)
  | none => .error "KeyError"

/-- Fallible inner support loop; same control flow as `recordIndices`. -/
def recordIndicesE (info : List (Nat × String)) (support : GroundingSupport) :
    Nat → List Nat → List (String × Source) →
      Except String (List (String × Source))
  | _, [], srcs => .ok srcs
  | i, chunkIdx :: rest, srcs =>
      match alookup chunkIdx info with
      | none => recordIndicesE info support (i + 1) rest srcs
      | some sid =>
          let scores := support.confidence_scores.getD []
          let confidence := scores.getD i ((1 : ℚ) / 2)
          let text_segment :=
            match support.segment with
            | some seg => seg.text
            | none => ""
          match appendClaimE srcs sid ⟨text_segment, confidence⟩ with
          | .ok srcs' => recordIndicesE info support (i + 1) rest srcs'
          | .error msg => .error msg

/-- Fallible support loop. -/
def recordSupportsE (info : List (Nat × String)) :
    List GroundingSupport → List (String × Source) →
      Except String (List (String × Source))
  | [], srcs => .ok srcs
  | sup :: rest, srcs =>
      match recordIndicesE info sup 0 (sup.grounding_chunk_indices.getD []) srcs with
      | .ok srcs' => recordSupportsE info rest srcs'
      | .error msg => .error msg

/-- Fallible processing of one event (the chunk loop itself cannot raise:
`url_to_short_id[url]` is always preceded by the insertion guard). -/
def processEventE (st : Scan) (e : Event) : Except String Scan :=
  match e.grounding_metadata with
  | none => .ok st
  | some md =>
      if md.grounding_chunks.isEmpty then .ok st
      else
        let cs := scanChunks { st with chunksInfo := [] } 0 md.grounding_chunks
        match md.grounding_supports with
        | none => .ok { cs with srcs := cs.srcs }
        | some sups =>
            if sups.isEmpty then .ok { cs with srcs := cs.srcs }
            else
              match recordSupportsE cs.chunksInfo sups cs.srcs with
              | .ok srcs' => .ok { cs with srcs := srcs' }
              | .error msg => .error msg

/-- Fallible event loop. -/
def processEventsE : Scan → List Event → Except String Scan
  | st, [] => .ok st
  | st, e :: rest =>
      match processEventE st e with
      | .ok st' => processEventsE st' rest
      | .error msg => .error msg

/-- Fallible rendering of one callback invocation. -/
def collect_research_sources_callbackE (st : LedgerState)
    (events : List Event) : Except String LedgerState :=
  match processEventsE
      ⟨st.url_to_short_id, st.sources, st.url_to_short_id.length + 1, []⟩
      events with
  | .ok fin => .ok ⟨fin.urlMap, fin.srcs⟩
  | .error msg => .error msg

/-- Fallible call sequence from a fresh session state. -/
def runCallsE : LedgerState → List (List Event) → Except String LedgerState
  | st, [] => .ok st
  | st, evs :: rest =>
      match collect_research_sources_callbackE st evs with
      | .ok st' => runCallsE st' rest
      | .error msg => .error msg

-- ### Refinement loop (`recipe_creation_pipeline`, agent.py 365-380)

/-- Modelled from the spec: one loop iteration's external outcomes.  The
critique and refinement steps are LLM calls outside the repository; a script
entry holds the `pediatrician_evaluation` the critic leaves in state (absent
when no parsable structured output was produced) and the session events each
step emits (which may carry grounding metadata). -/
structure IterScript where
  feedback : Option Evaluation
  critiqueEvents : List Event
  refineEvents : List Event

/-- The observable trace of one executed loop iteration. -/
structure IterResult where
  ledgerAtDecision : LedgerState
  stopped : Bool
  ledgerAfterIter : LedgerState

/-- Modelled from the spec (§4.4) and the wiring at agent.py 365-380: the
`LoopAgent` runs its sub-agents `[pediatrician_critic_agent,
EscalationChecker, recipe_refiner_agent]` in order, for at most
`max_iterations` iterations (the script length), stopping as soon as the
checker escalates.  Only the refiner carries
`collect_research_sources_callback` as `after_agent_callback`
(agent.py 329), so the ledger is updated exactly once per continuing
iteration, after the decision, over the whole accumulated session history. -/
def runIters (led : LedgerState) (sess : List Event) :
    List IterScript → List IterResult
  | [] => []
  | it :: rest =>
      let sessAfterCritique := sess ++ it.critiqueEvents
      if escalation_checker it.feedback then
        [⟨led, true, led⟩]
      else
        let sessAfterRefine := sessAfterCritique ++ it.refineEvents
        let led' := collect_research_sources_callback led sessAfterRefine
        ⟨led, false, led'⟩ :: runIters led' sessAfterRefine rest

/-- Number of refinement attempts in a trace: one per non-stopped iteration
(the refiner runs only when the checker does not escalate). -/
def refinementCount (rs : List IterResult) : Nat :=
  (rs.filter fun r => !r.stopped).length

/-- Number of critique invocations: one per executed iteration. -/
def critiqueCount (rs : List IterResult) : Nat := rs.length

/-- Whether the loop stopped by escalation (first `pass`). -/
def stoppedByPass (rs : List IterResult) : Bool := rs.any (·.stopped)

/-- Session events accumulated by the first `k` iterations of a script: each
iteration appends its critique step's events and then its refinement step's
events to the session history. -/
def eventsThrough : List IterScript → Nat → List Event
  | _, 0 => []
  | [], _ + 1 => []
  | it :: rest, k + 1 =>
      it.critiqueEvents ++ it.refineEvents ++ eventsThrough rest k

-- ### Recipe post-processing (`recipe_generator_postprocessor`, agent.py 200-271)

/-- One entry of `ingredient_images` when no image was generated
(agent.py 222): `{"name": ing, "base64_image": None}`. -/
def mkImageEntry (ing : Json) : Json :=
  .obj [("name", ing), ("base64_image", .null)]

/-- Python `for ing in recipe_ingredients`: lists yield their elements,
strings their characters, dicts their keys; other truthy values raise
TypeError (`none` here). -/
def pyIterate : Json → Option (List Json)
  | .arr l => some l
  | .str s => some (s.toList.map fun c => .str c.toString)
  | .obj l => some (l.map fun p => .str p.1)
  | _ => none

/-- All-string check used by the image branch: building
`processed_ingredient_names` calls `.split(" ")` on every ingredient, which
raises AttributeError on a non-string (agent.py 230-249). -/
def asStringsOnly : List Json → Option (List String)
  | [] => some []
  | .str s :: rest => (asStringsOnly rest).map fun l => s :: l
  | _ :: _ => none

/-- `recipe_generator_postprocessor` (agent.py 200-271).  `imgOracle i` is the
outcome of the external Vertex AI image generation for the `i`-th ingredient
(`generate_ingredient_image` plus the surrounding try/except, agent.py
252-268: an exception and a `None` result both leave `base64_image = None`,
so both collapse to `none`); the prompt-building name heuristic (agent.py
229-249) only shapes the text given to that external call and is absorbed
into the oracle.  `gcpProject` models `os.environ.get("GOOGLE_CLOUD_PROJECT")`. -/
def recipe_generator_postprocessor (imgOracle : Nat → Option String)
    (gcpProject : Option String) (out : Json) : Except String Json :=
  match out with
  | .obj fields =>
      match alookup "ingredients" fields with
      | none => .ok (.obj fields)
      | some ingredientsJson =>
          if !ingredientsJson.truthy then
            .ok (.obj (setKey fields "ingredient_images" (.arr [])))
          else
            match pyIterate ingredientsJson with
            | none => .error "TypeError"
            | some items =>
                if gcpProject.getD "" = "" then
                  .ok (.obj (setKey fields "ingredient_images"
                    (.arr (items.map mkImageEntry))))
                else
                  match asStringsOnly items with
                  | none => .error "AttributeError"
                  | some descs =>
                      .ok (.obj (setKey fields "ingredient_images"
                        (.arr ((descs.enum.map fun p =>
                          Json.obj [("name", .str p.2),
                            ("base64_image",
                              match imgOracle p.1 with
                              | some b => .str b
                              | none => .null)])))))
  | j => .ok j

-- ### The `Recipe` schema (agent.py 28-52)

/-- `IngredientImage` (agent.py 28-31): `name : str`,
`base64_image : str | None`, both declared without defaults. -/
structure IngredientImage where
  name : String
  base64_image : Option String
deriving DecidableEq, Repr

/-- `Recipe` (agent.py 33-52): five required fields and the optional
`ingredient_images` (default `None`).  No field carries a non-emptiness
constraint. -/
structure Recipe where
  title : String
  description : String
  ingredients : List String
  instructions : List String
  age_appropriateness : String
  ingredient_images : Option (List IngredientImage)
deriving DecidableEq, Repr

/-- Validation of one `IngredientImage` payload. -/
def IngredientImage.validate (j : Json) : Option IngredientImage :=
  match j with
  | .obj flds =>
      match alookup "name" flds, alookup "base64_image" flds with
      | some (.str n), some .null => some ⟨n, none⟩
      | some (.str n), some (.str b) => some ⟨n, some b⟩
      | _, _ => none
  | _ => none

/-- Validate a JSON value as a string. -/
def asString : Json → Option String
  | .str s => some s
  | _ => none

/-- Validate a JSON value as a list of strings. -/
def asStringList : Json → Option (List String)
  | .arr items => asStringsOnly items
  | _ => none

/-- Validate the optional `ingredient_images` field: absent or `null` gives
`None`; a list is validated element-wise. -/
def validateImagesField : Option Json → Option (Option (List IngredientImage))
  | none => some none
  | some .null => some none
  | some (.arr l) => (optMapImages l).map some
  | some _ => none
where
  optMapImages : List Json → Option (List IngredientImage)
    | [] => some []
    | j :: rest =>
        match IngredientImage.validate j, optMapImages rest with
        | some img, some l => some (img :: l)
        | _, _ => none

/-- Pydantic validation of the `Recipe` schema (agent.py 33-52): all five
declared fields are required with their declared types; `ingredient_images`
is optional; nothing constrains the lists to be non-empty. -/
def Recipe.validate (j : Json) : Option Recipe :=
  match j with
  | .obj flds =>
      match (alookup "title" flds).bind asString,
            (alookup "description" flds).bind asString,
            (alookup "ingredients" flds).bind asStringList,
            (alookup "instructions" flds).bind asStringList,
            (alookup "age_appropriateness" flds).bind asString,
            validateImagesField (alookup "ingredient_images" flds) with
      | some t, some d, some ing, some ins, some age, some imgs =>
          some ⟨t, d, ing, ins, age, imgs⟩
      | _, _, _, _, _, _ => none
  | _ => none

/-- A well-formed `Recipe` JSON payload with the given field values. -/
def mkRecipeJson (title description : String) (ing ins : List String)
    (age : String) : Json :=
  .obj [("title", .str title), ("description", .str description),
        ("ingredients", .arr (ing.map .str)),
        ("instructions", .arr (ins.map .str)),
        ("age_appropriateness", .str age)]

-- ### `generate_ingredient_image` (image_utils.py 11-82)

/-- Base64 alphabet (RFC 4648), as used by Python's `base64.b64encode`. -/
def b64Char (n : Nat) : Char :=
  "ABCDEFGHIJKLMNOPQRSTUVWXYZabcdefghijklmnopqrstuvwxyz0123456789+/".toList.getD n 'A'

/-- Base64 encoding of a byte list, as `base64.b64encode(...).decode("utf-8")`
(image_utils.py 67). -/
def b64encode : List Nat → String
  | [] => ""
  | [a] =>
      String.mk [b64Char (a / 4), b64Char (a % 4 * 16), '=', '=']
  | [a, b] =>
      String.mk [b64Char (a / 4), b64Char (a % 4 * 16 + b / 16),
        b64Char (b % 16 * 4), '=']
  | a :: b :: c :: rest =>
      String.mk [b64Char (a / 4), b64Char (a % 4 * 16 + b / 16),
        b64Char (b % 16 * 4 + c / 64), b64Char (c % 64)] ++ b64encode rest

/-- The possible outcomes of the external Vertex AI interaction inside
`generate_ingredient_image`: `vertexai.init` raising (image_utils.py 29-38),
`model.generate_images` raising a `GoogleAPIError` (75-79) or any other
exception (80-82), or returning a response whose `images` hold the listed
byte strings (53-73). -/
inductive ImageGenOutcome where
  | initFailure
  | apiError (msg : String)
  | otherError
  | response (images : List (List Nat))
deriving DecidableEq, Repr

/-- `generate_ingredient_image` (image_utils.py 11-82) as a function of the
external outcome: every caught failure path returns `None`; a response with
at least one image returns the base64 encoding of the first image's bytes. -/
def generate_ingredient_image (outcome : ImageGenOutcome) : Option String :=
  match outcome with
  | .initFailure => none
  | .apiError _ => none
  | .otherError => none
  | .response [] => none
  | .response (img :: _) => some (b64encode img)


-- ## Helper lemmas

theorem alookup_append_left {κ α : Type} [DecidableEq κ] {k : κ}
    {l : List (κ × α)} {v : α} (h : alookup k l = some v) (t : List (κ × α)) :
    alookup k (l ++ t) = some v := by
  induction l with
  | nil => simp [alookup] at h
  | cons p rest ih =>
      obtain ⟨k', v'⟩ := p
      simp only [alookup, List.cons_append] at h ⊢
      by_cases hk : k = k' <;> simp [hk] at h ⊢
      · exact h
      · exact ih h

theorem alookup_append_none {κ α : Type} [DecidableEq κ] {k : κ}
    {l : List (κ × α)} (h : alookup k l = none) (t : List (κ × α)) :
    alookup k (l ++ t) = alookup k t := by
  induction l with
  | nil => simp
  | cons p rest ih =>
      obtain ⟨k', v'⟩ := p
      simp only [alookup, List.cons_append] at h ⊢
      by_cases hk : k = k' <;> simp [hk] at h ⊢
      exact ih h

theorem alookup_of_prefix {κ α : Type} [DecidableEq κ] {k : κ}
    {l l' : List (κ × α)} {v : α} (hp : l <+: l') (h : alookup k l = some v) :
    alookup k l' = some v := by
  obtain ⟨t, rfl⟩ := hp
  exact alookup_append_left h t

theorem alookup_mem {κ α : Type} [DecidableEq κ] {k : κ}
    {l : List (κ × α)} {v : α} (h : alookup k l = some v) : (k, v) ∈ l := by
  induction l with
  | nil => simp [alookup] at h
  | cons p rest ih =>
      obtain ⟨k', v'⟩ := p
      simp only [alookup] at h
      by_cases hk : k = k' <;> simp [hk] at h
      · simp [hk, h]
      · simp [ih h]

theorem alookup_ne_nil {κ α : Type} [DecidableEq κ] {k : κ}
    {l : List (κ × α)} {v : α} (h : alookup k l = some v) : l ≠ [] := by
  intro hl
  subst hl
  simp [alookup] at h

theorem isSome_alookup_append {κ α : Type} [DecidableEq κ] {k : κ}
    {l : List (κ × α)} (h : (alookup k l).isSome = true) (t : List (κ × α)) :
    (alookup k (l ++ t)).isSome = true := by
  obtain ⟨v, hv⟩ := Option.isSome_iff_exists.mp h
  simp [alookup_append_left hv t]

theorem alookup_append_self_isSome {κ α : Type} [DecidableEq κ] (k : κ)
    (l : List (κ × α)) (v : α) :
    (alookup k (l ++ [(k, v)])).isSome = true := by
  cases h : alookup k l with
  | some w => simp [alookup_append_left h]
  | none => simp [alookup_append_none h, alookup]

theorem title_fallback (a b : String) : (if a ≠ b then a else b) = a := by
  by_cases h : a = b <;> simp [h]

theorem Json.isStrEq_eq_true_iff (j : Json) (s : String) :
    j.isStrEq s = true ↔ j = .str s := by
  cases j <;> simp [Json.isStrEq]

-- ## C2: the stop decision

/-- C2: the escalation decision returns true iff the latest feedback is
present and its grade equals "pass"; absent feedback gives false, grade
"fail" gives false, grade "pass" gives true — absent feedback is continue,
never pass. -/
theorem escalation_checker_spec :
    (∀ ev : Option Evaluation,
      escalation_checker ev = true ↔
        ∃ d, ev = some d ∧ alookup "grade" d = some (Json.str "pass")) ∧
    escalation_checker none = false ∧
    (∀ c, escalation_checker
      (some [("grade", Json.str "fail"), ("comment", Json.str c)]) = false) ∧
    (∀ c, escalation_checker
      (some [("grade", Json.str "pass"), ("comment", Json.str c)]) = true) := by
  refine ⟨?_, rfl, fun c => rfl, fun c => rfl⟩
  intro ev
  cases ev with
  | none => simp [escalation_checker]
  | some d =>
      simp only [escalation_checker, Bool.and_eq_true, Bool.not_eq_true']
      constructor
      · rintro ⟨hne, h⟩
        cases hg : alookup "grade" d with
        | none => rw [hg] at h; simp at h
        | some v =>
            rw [hg] at h
            exact ⟨d, rfl, by rw [hg, (Json.isStrEq_eq_true_iff v "pass").mp h]⟩
      · rintro ⟨d', hd, hg⟩
        cases hd
        refine ⟨?_, ?_⟩
        · have := alookup_ne_nil hg
          simpa [List.isEmpty_iff] using this
        · rw [hg]
          simp [Json.isStrEq]

/-- Witness for `escalation_checker_spec` at concrete feedback values. -/
theorem escalation_checker_spec_witness :
    escalation_checker none = false ∧
    escalation_checker
      (some [("grade", Json.str "fail"), ("comment", Json.str "needs work")]) = false ∧
    escalation_checker
      (some [("grade", Json.str "pass"), ("comment", Json.str "ok")]) = true :=
  ⟨escalation_checker_spec.2.1, escalation_checker_spec.2.2.1 "needs work",
    escalation_checker_spec.2.2.2 "ok"⟩

-- ## C10: `generate_ingredient_image` never raises

/-- C10: `generate_ingredient_image` returns `None` rather than raising when
Vertex AI initialization fails, when the generation call raises a Google API
error or any other exception, or when the response holds no images; it
returns a base64-encoded string exactly when the response holds at least one
image. -/
theorem generate_ingredient_image_spec :
    generate_ingredient_image .initFailure = none ∧
    (∀ msg, generate_ingredient_image (.apiError msg) = none) ∧
    generate_ingredient_image .otherError = none ∧
    generate_ingredient_image (.response []) = none ∧
    (∀ o : ImageGenOutcome, (generate_ingredient_image o).isSome = true ↔
      ∃ img rest, o = .response (img :: rest)) ∧
    (∀ img rest,
      generate_ingredient_image (.response (img :: rest)) = some (b64encode img)) := by
  refine ⟨rfl, fun _ => rfl, rfl, rfl, ?_, fun _ _ => rfl⟩
  intro o
  cases o with
  | initFailure => simp [generate_ingredient_image]
  | apiError msg => simp [generate_ingredient_image]
  | otherError => simp [generate_ingredient_image]
  | response imgs =>
      cases imgs with
      | nil => simp [generate_ingredient_image]
      | cons img rest => simp [generate_ingredient_image]

/-- Witness for `generate_ingredient_image_spec` at concrete outcomes. -/
theorem generate_ingredient_image_spec_witness :
    generate_ingredient_image (.apiError "quota") = none ∧
    generate_ingredient_image (.response [[72, 105]]) = some (b64encode [72, 105]) :=
  ⟨generate_ingredient_image_spec.2.1 "quota",
    generate_ingredient_image_spec.2.2.2.2.2 [72, 105] []⟩

-- ## C7: the Recipe schema does not force non-empty lists

theorem asStringsOnly_map_str (l : List String) :
    asStringsOnly (l.map .str) = some l := by
  induction l with
  | nil => rfl
  | cons s rest ih => simp [asStringsOnly, ih]

/-- C7 counterexample: the `Recipe` schema (the only shape the code imposes
on drafts) accepts a recipe whose `ingredients` and `instructions` are both
empty, so non-emptiness of drafts is not guaranteed by the program. -/
theorem recipe_empty_lists_counterexample :
    ¬ (∀ (j : Json) (r : Recipe), Recipe.validate j = some r →
        r.ingredients ≠ [] ∧ r.instructions ≠ []) := by
  intro h
  have hv : Recipe.validate (mkRecipeJson "Puree" "A puree." [] [] "6+ months") =
      some ⟨"Puree", "A puree.", [], [], "6+ months", none⟩ := by rfl
  exact (h _ _ hv).1 rfl

/-- C7 amended: the `Recipe` schema requires `ingredients` and `instructions`
to be present as lists of strings (a payload missing either is rejected), but
does not constrain them to be non-empty: every well-typed payload validates,
including one with empty lists. -/
theorem recipe_schema_requires_fields_but_allows_empty :
    (∀ flds, alookup "ingredients" flds = none →
        Recipe.validate (.obj flds) = none) ∧
    (∀ flds, alookup "instructions" flds = none →
        Recipe.validate (.obj flds) = none) ∧
    (∀ t d ing ins age,
        Recipe.validate (mkRecipeJson t d ing ins age) =
          some ⟨t, d, ing, ins, age, none⟩) := by
  refine ⟨?_, ?_, ?_⟩
  · intro flds h
    simp only [Recipe.validate, h, Option.none_bind]
    split <;> first | rfl | simp_all
  · intro flds h
    simp only [Recipe.validate, h, Option.none_bind]
    split <;> first | rfl | simp_all
  · intro t d ing ins age
    simp [Recipe.validate, mkRecipeJson, alookup, asString, asStringList,
      asStringsOnly_map_str, validateImagesField]

/-- Witness for `recipe_schema_requires_fields_but_allows_empty` at concrete
payloads, including the empty-list recipe. -/
theorem recipe_schema_witness :
    Recipe.validate (.obj [("title", .str "Puree")]) = none ∧
    Recipe.validate (mkRecipeJson "Puree" "A puree." [] [] "6+ months") =
      some ⟨"Puree", "A puree.", [], [], "6+ months", none⟩ :=
  ⟨recipe_schema_requires_fields_but_allows_empty.1 _ (by rfl),
    recipe_schema_requires_fields_but_allows_empty.2.2 _ _ _ _ _⟩

-- ## C9: post-processing with GOOGLE_CLOUD_PROJECT unset

theorem alookup_setKey_self (l : List (String × Json)) (k : String) (v : Json) :
    alookup k (setKey l k v) = some v := by
  induction l with
  | nil => simp [setKey, alookup]
  | cons p rest ih =>
      obtain ⟨k', v'⟩ := p
      by_cases hk : k = k' <;> simp [setKey, alookup, hk, ih]

theorem alookup_setKey_ne (l : List (String × Json)) {k k' : String} (v : Json)
    (h : k' ≠ k) : alookup k' (setKey l k v) = alookup k' l := by
  induction l with
  | nil => simp [setKey, alookup, h]
  | cons p rest ih =>
      obtain ⟨k₀, v₀⟩ := p
      by_cases hk : k = k₀
      · subst hk
        simp [setKey, alookup, h]
      · by_cases hk' : k' = k₀ <;> simp [setKey, alookup, hk, hk', ih]

/-- C9: with `GOOGLE_CLOUD_PROJECT` unset, the post-processor returns the
recipe with `ingredient_images` set to one entry per ingredient, each entry
`{"name": ingredient, "base64_image": None}`, and leaves every other field
unchanged; an output that is not a dict, or lacks an `ingredients` key, is
returned entirely unchanged (and no error is raised in any of these cases). -/
theorem recipe_generator_postprocessor_unset_project :
    (∀ (imgOracle : Nat → Option String) (fields : List (String × Json))
        (items : List Json),
      alookup "ingredients" fields = some (.arr items) →
      recipe_generator_postprocessor imgOracle none (.obj fields) =
        .ok (.obj (setKey fields "ingredient_images"
          (.arr (items.map mkImageEntry)))) ∧
      alookup "ingredient_images"
          (setKey fields "ingredient_images" (.arr (items.map mkImageEntry))) =
        some (.arr (items.map mkImageEntry)) ∧
      (∀ k, k ≠ "ingredient_images" →
        alookup k (setKey fields "ingredient_images"
          (.arr (items.map mkImageEntry))) = alookup k fields) ∧
      (items.map mkImageEntry).length = items.length ∧
      (∀ j ∈ items.map mkImageEntry, ∃ ing ∈ items,
        j = .obj [("name", ing), ("base64_image", .null)])) ∧
    (∀ (imgOracle : Nat → Option String) (fields : List (String × Json)),
      alookup "ingredients" fields = none →
      recipe_generator_postprocessor imgOracle none (.obj fields) =
        .ok (.obj fields)) ∧
    (∀ (imgOracle : Nat → Option String) (j : Json),
      (∀ flds, j ≠ .obj flds) →
      recipe_generator_postprocessor imgOracle none j = .ok j) := by
  refine ⟨?_, ?_, ?_⟩
  · intro imgOracle fields items h
    refine ⟨?_, alookup_setKey_self _ _ _, fun k hk => alookup_setKey_ne _ _ hk,
      List.length_map _ _, ?_⟩
    · cases items with
      | nil => simp [recipe_generator_postprocessor, h, Json.truthy]
      | cons j rest =>
          simp [recipe_generator_postprocessor, h, Json.truthy, pyIterate,
            Option.getD]
    · intro j hj
      obtain ⟨ing, hing, rfl⟩ := List.mem_map.mp hj
      exact ⟨ing, hing, rfl⟩
  · intro imgOracle fields h
    simp [recipe_generator_postprocessor, h]
  · intro imgOracle j h
    cases j with
    | obj flds => exact absurd rfl (h flds)
    | null => rfl
    | bool b => rfl
    | num q => rfl
    | str s => rfl
    | arr l => rfl

/-- Witness for `recipe_generator_postprocessor_unset_project` at a concrete
recipe dict with two ingredients. -/
theorem recipe_generator_postprocessor_unset_project_witness :
    recipe_generator_postprocessor (fun _ => none) none
        (.obj [("title", .str "Puree"),
               ("ingredients", .arr [.str "1 ripe banana", .str "2 tbsp oats"])]) =
      .ok (.obj [("title", .str "Puree"),
               ("ingredients", .arr [.str "1 ripe banana", .str "2 tbsp oats"]),
               ("ingredient_images", .arr
                 [.obj [("name", .str "1 ripe banana"), ("base64_image", .null)],
                  .obj [("name", .str "2 tbsp oats"), ("base64_image", .null)]])]) ∧
    recipe_generator_postprocessor (fun _ => none) none (.str "no recipe") =
      .ok (.str "no recipe") := by
  constructor
  · have := (recipe_generator_postprocessor_unset_project.1 (fun _ => none)
      [("title", .str "Puree"),
       ("ingredients", .arr [.str "1 ripe banana", .str "2 tbsp oats"])]
      [.str "1 ripe banana", .str "2 tbsp oats"] (by rfl)).1
    simpa [setKey, mkImageEntry] using this
  · exact recipe_generator_postprocessor_unset_project.2.2 (fun _ => none) _
      (fun flds => by simp)

-- ## C1: the refinement loop is bounded

theorem runIters_spec :
    ∀ (its : List IterScript) (led : LedgerState) (sess : List Event),
      refinementCount (runIters led sess its) ≤ its.length ∧
      critiqueCount (runIters led sess its) =
        refinementCount (runIters led sess its) +
          (if stoppedByPass (runIters led sess its) then 1 else 0) ∧
      (stoppedByPass (runIters led sess its) = false →
        refinementCount (runIters led sess its) = its.length) ∧
      (stoppedByPass (runIters led sess its) = true →
        ∃ it, its.get? (refinementCount (runIters led sess its)) = some it ∧
          escalation_checker it.feedback = true) ∧
      (∀ j, j < refinementCount (runIters led sess its) →
        ∃ it, its.get? j = some it ∧ escalation_checker it.feedback = false) := by
  intro its
  induction its with
  | nil =>
      intro led sess
      refine ⟨?_, ?_, ?_, ?_, ?_⟩ <;>
        simp [runIters, refinementCount, critiqueCount, stoppedByPass]
  | cons it rest ih =>
      intro led sess
      by_cases h : escalation_checker it.feedback = true
      · have hrun : runIters led sess (it :: rest) = [⟨led, true, led⟩] := by
          simp [runIters, h]
        rw [hrun]
        have h1 : refinementCount [(⟨led, true, led⟩ : IterResult)] = 0 := rfl
        have h2 : critiqueCount [(⟨led, true, led⟩ : IterResult)] = 1 := rfl
        have h3 : stoppedByPass [(⟨led, true, led⟩ : IterResult)] = true := rfl
        rw [h1, h2, h3]
        exact ⟨Nat.zero_le _, by simp, by simp, fun _ => ⟨it, rfl, h⟩,
          fun j hj => absurd hj (Nat.not_lt_zero j)⟩
      · have hb : escalation_checker it.feedback = false := by
          simpa using h
        have hrun : runIters led sess (it :: rest) =
            ⟨led, false,
              collect_research_sources_callback led
                (sess ++ it.critiqueEvents ++ it.refineEvents)⟩ ::
            runIters
              (collect_research_sources_callback led
                (sess ++ it.critiqueEvents ++ it.refineEvents))
              (sess ++ it.critiqueEvents ++ it.refineEvents) rest := by
          simp [runIters, hb]
        rw [hrun]
        obtain ⟨ih1, ih2, ih3, ih4, ih5⟩ := ih
          (collect_research_sources_callback led
            (sess ++ it.critiqueEvents ++ it.refineEvents))
          (sess ++ it.critiqueEvents ++ it.refineEvents)
        have hrc : ∀ (x : LedgerState) (y : LedgerState) (rs : List IterResult),
            refinementCount (⟨x, false, y⟩ :: rs) = refinementCount rs + 1 := by
          intro x y rs
          simp [refinementCount, List.filter]
        have hcc : ∀ (x : LedgerState) (y : LedgerState) (rs : List IterResult),
            critiqueCount (⟨x, false, y⟩ :: rs) = critiqueCount rs + 1 := by
          intro x y rs
          simp [critiqueCount]
        have hsp : ∀ (x : LedgerState) (y : LedgerState) (rs : List IterResult),
            stoppedByPass (⟨x, false, y⟩ :: rs) = stoppedByPass rs := by
          intro x y rs
          simp [stoppedByPass, List.any_cons]
        rw [hrc, hcc, hsp]
        refine ⟨by simpa using Nat.succ_le_succ ih1, ?_, ?_, ?_, ?_⟩
        · rcases hs : stoppedByPass (runIters
              (collect_research_sources_callback led
                (sess ++ it.critiqueEvents ++ it.refineEvents))
              (sess ++ it.critiqueEvents ++ it.refineEvents) rest) with _ | _ <;>
            rw [hs] at ih2 <;>
            simp only [eq_self_iff_true, Bool.false_eq_true, if_true, if_false] at ih2 ⊢ <;>
            omega
        · intro hs
          rw [ih3 hs]
          simp
        · intro hs
          obtain ⟨it', hget, hchk⟩ := ih4 hs
          exact ⟨it', by simpa using hget, hchk⟩
        · intro j hj
          cases j with
          | zero => exact ⟨it, rfl, hb⟩
          | succ j' =>
              obtain ⟨it', hget, hchk⟩ := ih5 j' (by omega)
              exact ⟨it', by simpa using hget, hchk⟩

/-- C1: for every sequence of critique results the loop performs at most
`max_iterations` refinement attempts (the script length) and at most that
many critique invocations; it stops earlier exactly at the first feedback the
gate grades "pass" (all earlier feedbacks failed the gate), and when no pass
occurs it performs exactly `max_iterations` refinement attempts.  Scenario A:
with two failing critiques the loop stops at the cap after exactly 2
refinement attempts and 2 critiques — no third critique happens. -/
theorem refinement_loop_bounded :
    (∀ (its : List IterScript) (led : LedgerState) (sess : List Event),
      refinementCount (runIters led sess its) ≤ its.length ∧
      critiqueCount (runIters led sess its) ≤ its.length ∧
      (stoppedByPass (runIters led sess its) = true →
        ∃ it, its.get? (refinementCount (runIters led sess its)) = some it ∧
          escalation_checker it.feedback = true) ∧
      (∀ j, j < refinementCount (runIters led sess its) →
        ∃ it, its.get? j = some it ∧ escalation_checker it.feedback = false) ∧
      (stoppedByPass (runIters led sess its) = false →
        refinementCount (runIters led sess its) = its.length)) ∧
    (∀ (led : LedgerState) (sess : List Event) (f1 f2 : Option Evaluation)
        (c1 c2 r1 r2 : List Event),
      escalation_checker f1 = false → escalation_checker f2 = false →
      refinementCount (runIters led sess [⟨f1, c1, r1⟩, ⟨f2, c2, r2⟩]) = 2 ∧
      critiqueCount (runIters led sess [⟨f1, c1, r1⟩, ⟨f2, c2, r2⟩]) = 2 ∧
      stoppedByPass (runIters led sess [⟨f1, c1, r1⟩, ⟨f2, c2, r2⟩]) = false) := by
  constructor
  · intro its led sess
    obtain ⟨h1, h2, h3, h4, h5⟩ := runIters_spec its led sess
    refine ⟨h1, ?_, h4, h5, h3⟩
    rcases hs : stoppedByPass (runIters led sess its) with _ | _
    · rw [hs] at h2
      simp only [Bool.false_eq_true, if_false] at h2
      omega
    · rw [hs] at h2
      simp only [eq_self_iff_true, if_true] at h2
      obtain ⟨it, hget, _⟩ := h4 hs
      have hlt : refinementCount (runIters led sess its) < its.length :=
        List.get?_eq_some.mp hget |>.1
      omega
  · intro led sess f1 f2 c1 c2 r1 r2 h1 h2
    refine ⟨?_, ?_, ?_⟩ <;>
      simp [runIters, h1, h2, refinementCount, critiqueCount, stoppedByPass,
        List.filter]

/-- Witness for `refinement_loop_bounded` at a concrete two-failure script. -/
theorem refinement_loop_bounded_witness :
    refinementCount (runIters emptyLedger []
      [⟨some [("grade", Json.str "fail")], [], []⟩,
       ⟨some [("grade", Json.str "fail")], [], []⟩]) = 2 ∧
    critiqueCount (runIters emptyLedger []
      [⟨some [("grade", Json.str "fail")], [], []⟩,
       ⟨some [("grade", Json.str "fail")], [], []⟩]) = 2 ∧
    stoppedByPass (runIters emptyLedger []
      [⟨some [("grade", Json.str "fail")], [], []⟩,
       ⟨some [("grade", Json.str "fail")], [], []⟩]) = false :=
  refinement_loop_bounded.2 emptyLedger [] _ _ [] [] [] [] rfl rfl

-- ## C6: when grounding is recorded relative to the decision

/-- C6 amended: in every loop iteration the ledger consulted at decision time
is exactly the ledger left by the previous iteration (initially the inherited
one) — grounding attached to the current iteration's critique output has not
been recorded yet; recording happens once per continuing iteration, after the
decision, when the refiner's after-agent callback replays the accumulated
session history (which by then includes that iteration's critique and
refinement events); a stopping iteration records nothing. -/
theorem grounding_recorded_after_decision :
    ∀ (its : List IterScript) (led : LedgerState) (sess : List Event),
      (∀ r, (runIters led sess its).get? 0 = some r →
        r.ledgerAtDecision = led) ∧
      (∀ i r r', (runIters led sess its).get? i = some r →
        (runIters led sess its).get? (i + 1) = some r' →
        r'.ledgerAtDecision = r.ledgerAfterIter) ∧
      (∀ i r, (runIters led sess its).get? i = some r → r.stopped = false →
        r.ledgerAfterIter =
          collect_research_sources_callback r.ledgerAtDecision
            (sess ++ eventsThrough its (i + 1))) ∧
      (∀ i r, (runIters led sess its).get? i = some r → r.stopped = true →
        r.ledgerAfterIter = r.ledgerAtDecision) := by
  intro its
  induction its with
  | nil =>
      intro led sess
      refine ⟨?_, ?_, ?_, ?_⟩ <;> intro i <;> simp [runIters] at *
  | cons it rest ih =>
      intro led sess
      by_cases h : escalation_checker it.feedback = true
      · have hrun : runIters led sess (it :: rest) = [⟨led, true, led⟩] := by
          simp [runIters, h]
        rw [hrun]
        refine ⟨?_, ?_, ?_, ?_⟩
        · rintro r hr
          simp only [List.get?] at hr
          cases hr
          rfl
        · intro i r r' _ hr'
          rcases i with _ | i <;> simp [List.get?] at hr'
        · intro i r hr hstop
          rcases i with _ | i <;> simp [List.get?] at hr
          cases hr
          simp at hstop
        · intro i r hr _
          rcases i with _ | i <;> simp [List.get?] at hr
          cases hr
          rfl
      · have hb : escalation_checker it.feedback = false := by simpa using h
        have hrun : runIters led sess (it :: rest) =
            ⟨led, false,
              collect_research_sources_callback led
                (sess ++ it.critiqueEvents ++ it.refineEvents)⟩ ::
            runIters
              (collect_research_sources_callback led
                (sess ++ it.critiqueEvents ++ it.refineEvents))
              (sess ++ it.critiqueEvents ++ it.refineEvents) rest := by
          simp [runIters, hb]
        rw [hrun]
        obtain ⟨ih1, ih2, ih3, ih4⟩ := ih
          (collect_research_sources_callback led
            (sess ++ it.critiqueEvents ++ it.refineEvents))
          (sess ++ it.critiqueEvents ++ it.refineEvents)
        refine ⟨?_, ?_, ?_, ?_⟩
        · rintro r hr
          simp only [List.get?] at hr
          cases hr
          rfl
        · intro i r r' hr hr'
          rcases i with _ | i
          · simp only [List.get?] at hr hr'
            cases hr
            exact ih1 r' hr'
          · simp only [List.get?] at hr hr'
            exact ih2 i r r' hr hr'
        · intro i r hr hstop
          rcases i with _ | i
          · simp only [List.get?] at hr
            cases hr
            show collect_research_sources_callback led
                (sess ++ it.critiqueEvents ++ it.refineEvents) =
              collect_research_sources_callback led
                (sess ++ eventsThrough (it :: rest) 1)
            have he : eventsThrough (it :: rest) 1 =
                it.critiqueEvents ++ it.refineEvents ++ [] := by
              simp [eventsThrough]
            rw [he]
            simp [List.append_assoc]
          · simp only [List.get?] at hr
            have := ih3 i r hr hstop
            rw [this]
            have he : eventsThrough (it :: rest) (i + 2) =
                it.critiqueEvents ++ it.refineEvents ++ eventsThrough rest (i + 1) := by
              simp [eventsThrough]
            rw [he]
            simp [List.append_assoc]
        · intro i r hr hstop
          rcases i with _ | i
          · simp only [List.get?] at hr
            cases hr
            simp at hstop
          · simp only [List.get?] at hr
            exact ih4 i r hr hstop

/-- Witness for `grounding_recorded_after_decision` at a concrete passing
script: a stopping iteration leaves the ledger untouched. -/
theorem grounding_recorded_after_decision_witness :
    (⟨emptyLedger, true, emptyLedger⟩ : IterResult).ledgerAfterIter =
      (⟨emptyLedger, true, emptyLedger⟩ : IterResult).ledgerAtDecision ∧
    (runIters emptyLedger []
        [⟨some [("grade", Json.str "pass")], [], []⟩]).get? 0 =
      some ⟨emptyLedger, true, emptyLedger⟩ :=
  ⟨(grounding_recorded_after_decision
      [⟨some [("grade", Json.str "pass")], [], []⟩] emptyLedger []).2.2.2 0
      ⟨emptyLedger, true, emptyLedger⟩ rfl rfl, rfl⟩

/-- C6 counterexample: a loop iteration whose critique step's output carries
grounding metadata for `https://a.example`; at decision time the ledger does
not contain that url (so it was not recorded before the stop/continue
decision), while after the iteration's refinement callback it does. -/
theorem critique_grounding_unrecorded_at_decision :
    ((runIters emptyLedger []
        [⟨some [("grade", Json.str "fail")],
          [⟨some ⟨[⟨some ⟨"https://a.example", "A", "a.example"⟩⟩], none⟩⟩],
          []⟩]).get? 0).map
      (fun r => (alookup "https://a.example" r.ledgerAtDecision.url_to_short_id,
                 alookup "https://a.example" r.ledgerAfterIter.url_to_short_id)) =
      some (none, some "src-1") := by rfl

-- ## Ledger invariants (C3, C4, C5, C8)

/-- Short ids sit in first-seen order: the `i`-th entry of `url_to_short_id`
(the `i`-th distinct url ever recorded) carries `src-(i+1)`. -/
def UmNumbered (um : List (String × String)) : Prop :=
  ∀ i (h : i < um.length), (um[i]).2 = "src-" ++ toString (i + 1)

/-- `s'` extends `s`: every stored source is still there under its key with
all identifying fields intact, and its claim list only grew at the end. -/
def sourcesExtends (s s' : List (String × Source)) : Prop :=
  ∀ sid src, alookup sid s = some src →
    ∃ src', alookup sid s' = some src' ∧
      src'.short_id = src.short_id ∧ src'.title = src.title ∧
      src'.url = src.url ∧ src'.domain = src.domain ∧
      src.supported_claims <+: src'.supported_claims

/-- Every short id reachable through `url_to_short_id` has a `sources` entry
(the fact that makes the source's `sources[short_id]` access safe). -/
def MapsConsistent (um : List (String × String))
    (srcs : List (String × Source)) : Prop :=
  ∀ url sid, alookup url um = some sid → (alookup sid srcs).isSome = true

theorem alookup_appendClaim (srcs : List (String × Source)) (sid : String)
    (c : SupportedClaim) (k : String) :
    alookup k (appendClaim srcs sid c) =
      (alookup k srcs).map fun src =>
        if k = sid then
          { src with supported_claims := src.supported_claims ++ [c] }
        else src := by
  induction srcs with
  | nil => simp [appendClaim, alookup]
  | cons p rest ih =>
      obtain ⟨k', v⟩ := p
      simp only [appendClaim]
      by_cases hs : k' = sid
      · rw [if_pos hs]
        simp only [alookup]
        by_cases hk : k = k'
        · rw [if_pos hk, if_pos hk]
          simp [hk.trans hs]
        · rw [if_neg hk, if_neg hk]
          exact ih
      · rw [if_neg hs]
        simp only [alookup]
        by_cases hk : k = k'
        · rw [if_pos hk, if_pos hk]
          have hns : ¬ k = sid := fun hcon => hs (hk.symm.trans hcon)
          simp [hns]
        · rw [if_neg hk, if_neg hk]
          exact ih

theorem isSome_alookup_appendClaim (srcs : List (String × Source))
    (sid : String) (c : SupportedClaim) (k : String) :
    (alookup k (appendClaim srcs sid c)).isSome = (alookup k srcs).isSome := by
  rw [alookup_appendClaim]
  cases alookup k srcs <;> simp

theorem sourcesExtends_refl (s : List (String × Source)) : sourcesExtends s s :=
  fun _ src h => ⟨src, h, rfl, rfl, rfl, rfl, List.prefix_rfl⟩

theorem sourcesExtends_trans {a b c : List (String × Source)}
    (h1 : sourcesExtends a b) (h2 : sourcesExtends b c) : sourcesExtends a c := by
  intro sid src h
  obtain ⟨src', hb, e1, e2, e3, e4, hp⟩ := h1 sid src h
  obtain ⟨src'', hc, f1, f2, f3, f4, hp'⟩ := h2 sid src' hb
  exact ⟨src'', hc, f1.trans e1, f2.trans e2, f3.trans e3, f4.trans e4,
    hp.trans hp'⟩

theorem sourcesExtends_append (s t : List (String × Source)) :
    sourcesExtends s (s ++ t) :=
  fun _ src h => ⟨src, alookup_append_left h t, rfl, rfl, rfl, rfl,
    List.prefix_rfl⟩

theorem sourcesExtends_appendClaim (s : List (String × Source)) (sid : String)
    (c : SupportedClaim) : sourcesExtends s (appendClaim s sid c) := by
  intro k src h
  rw [alookup_appendClaim, h]
  by_cases hk : k = sid
  · exact ⟨{ src with supported_claims := src.supported_claims ++ [c] },
      by simp [hk], rfl, rfl, rfl, rfl, List.prefix_append _ _⟩
  · exact ⟨src, by simp [hk], rfl, rfl, rfl, rfl, List.prefix_rfl⟩

theorem umNumbered_snoc {um : List (String × String)} (h : UmNumbered um)
    (url : String) :
    UmNumbered (um ++ [(url, "src-" ++ toString (um.length + 1))]) := by
  intro i hi
  have hlen : i < um.length + 1 := by simpa using hi
  rcases Nat.lt_succ_iff_lt_or_eq.mp hlen with h' | h'
  · rw [List.getElem_append_left h']
    exact h i h'
  · rw [List.getElem_concat_length um _ i h', h']

theorem scanChunks_invariants :
    ∀ (chunks : List GroundingChunk) (st : Scan) (idx : Nat),
      st.urlMap <+: (scanChunks st idx chunks).urlMap ∧
      sourcesExtends st.srcs (scanChunks st idx chunks).srcs ∧
      (st.counter = st.urlMap.length + 1 →
        (scanChunks st idx chunks).counter =
          (scanChunks st idx chunks).urlMap.length + 1 ∧
        (UmNumbered st.urlMap → UmNumbered (scanChunks st idx chunks).urlMap)) := by
  intro chunks
  induction chunks with
  | nil =>
      intro st idx
      exact ⟨List.prefix_rfl, sourcesExtends_refl _, fun hc => ⟨hc, fun hn => hn⟩⟩
  | cons c rest ih =>
      intro st idx
      rcases hw : c.web with _ | w
      · have hstep : scanChunks st idx (c :: rest) = scanChunks st (idx + 1) rest := by
          simp [scanChunks, hw]
        rw [hstep]
        exact ih st (idx + 1)
      · rcases hlk : alookup w.uri st.urlMap with _ | sid
        · have hstep : scanChunks st idx (c :: rest) =
              scanChunks
                { urlMap := st.urlMap ++ [(w.uri, "src-" ++ toString st.counter)]
                  srcs := st.srcs ++ [("src-" ++ toString st.counter,
                    ⟨"src-" ++ toString st.counter,
                      if w.title ≠ w.domain then w.title else w.domain,
                      w.uri, w.domain, []⟩)]
                  counter := st.counter + 1
                  chunksInfo := st.chunksInfo ++
                    [(idx, "src-" ++ toString st.counter)] }
                (idx + 1) rest := by
            simp [scanChunks, hw, hlk]
          rw [hstep]
          obtain ⟨p1, p2, p3⟩ := ih
            { urlMap := st.urlMap ++ [(w.uri, "src-" ++ toString st.counter)]
              srcs := st.srcs ++ [("src-" ++ toString st.counter,
                ⟨"src-" ++ toString st.counter,
                  if w.title ≠ w.domain then w.title else w.domain,
                  w.uri, w.domain, []⟩)]
              counter := st.counter + 1
              chunksInfo := st.chunksInfo ++
                [(idx, "src-" ++ toString st.counter)] } (idx + 1)
          refine ⟨(List.prefix_append _ _).trans p1,
            sourcesExtends_trans (sourcesExtends_append _ _) p2, ?_⟩
          intro hc
          have hc' : st.counter + 1 =
              (st.urlMap ++ [(w.uri, "src-" ++ toString st.counter)]).length + 1 := by
            simp [hc]
          obtain ⟨q1, q2⟩ := p3 hc'
          refine ⟨q1, fun hn => q2 ?_⟩
          have := umNumbered_snoc hn w.uri
          rw [← hc] at this
          exact this
        · have hstep : scanChunks st idx (c :: rest) =
              scanChunks { st with chunksInfo := st.chunksInfo ++ [(idx, sid)] }
                (idx + 1) rest := by
            simp [scanChunks, hw, hlk]
          rw [hstep]
          exact ih { st with chunksInfo := st.chunksInfo ++ [(idx, sid)] } (idx + 1)

theorem scanChunks_consistent :
    ∀ (chunks : List GroundingChunk) (st : Scan) (idx : Nat),
      MapsConsistent st.urlMap st.srcs →
      (∀ p ∈ st.chunksInfo, (alookup p.2 st.srcs).isSome = true) →
      MapsConsistent (scanChunks st idx chunks).urlMap
        (scanChunks st idx chunks).srcs ∧
      (∀ p ∈ (scanChunks st idx chunks).chunksInfo,
        (alookup p.2 (scanChunks st idx chunks).srcs).isSome = true) := by
  intro chunks
  induction chunks with
  | nil => intro st idx hm hi; exact ⟨hm, hi⟩
  | cons c rest ih =>
      intro st idx hm hi
      rcases hw : c.web with _ | w
      · have hstep : scanChunks st idx (c :: rest) = scanChunks st (idx + 1) rest := by
          simp [scanChunks, hw]
        rw [hstep]
        exact ih st (idx + 1) hm hi
      · rcases hlk : alookup w.uri st.urlMap with _ | sid
        · have hstep : scanChunks st idx (c :: rest) =
              scanChunks
                { urlMap := st.urlMap ++ [(w.uri, "src-" ++ toString st.counter)]
                  srcs := st.srcs ++ [("src-" ++ toString st.counter,
                    ⟨"src-" ++ toString st.counter,
                      if w.title ≠ w.domain then w.title else w.domain,
                      w.uri, w.domain, []⟩)]
                  counter := st.counter + 1
                  chunksInfo := st.chunksInfo ++
                    [(idx, "src-" ++ toString st.counter)] }
                (idx + 1) rest := by
            simp [scanChunks, hw, hlk]
          rw [hstep]
          refine ih _ (idx + 1) ?_ ?_
          · intro url sid' hurl
            by_cases hseen : url = w.uri
            · subst hseen
              rw [alookup_append_none hlk] at hurl
              simp [alookup] at hurl
              subst hurl
              exact alookup_append_self_isSome _ _ _
            · cases hold : alookup url st.urlMap with
              | none =>
                  rw [alookup_append_none hold] at hurl
                  simp only [alookup] at hurl
                  rw [if_neg hseen] at hurl
                  simp [alookup] at hurl
              | some s =>
                  rw [alookup_append_left hold] at hurl
                  cases hurl
                  exact isSome_alookup_append (hm url _ hold) _
          · intro p hp
            rcases List.mem_append.mp hp with hp | hp
            · exact isSome_alookup_append (hi p hp) _
            · simp only [List.mem_singleton] at hp
              subst hp
              exact alookup_append_self_isSome _ _ _
        · have hstep : scanChunks st idx (c :: rest) =
              scanChunks { st with chunksInfo := st.chunksInfo ++ [(idx, sid)] }
                (idx + 1) rest := by
            simp [scanChunks, hw, hlk]
          rw [hstep]
          refine ih _ (idx + 1) hm ?_
          intro p hp
          rcases List.mem_append.mp hp with hp | hp
          · exact hi p hp
          · simp only [List.mem_singleton] at hp
            subst hp
            exact hm w.uri sid hlk

theorem recordIndices_isSome (info : List (Nat × String))
    (sup : GroundingSupport) :
    ∀ (cis : List Nat) (i : Nat) (srcs : List (String × Source)) (k : String),
      (alookup k srcs).isSome = true →
      (alookup k (recordIndices info sup i cis srcs)).isSome = true := by
  intro cis
  induction cis with
  | nil => intro i srcs k h; exact h
  | cons chunkIdx rest ih =>
      intro i srcs k h
      rcases hlk : alookup chunkIdx info with _ | sid
      · have hstep : recordIndices info sup i (chunkIdx :: rest) srcs =
            recordIndices info sup (i + 1) rest srcs := by
          simp [recordIndices, hlk]
        rw [hstep]
        exact ih (i + 1) srcs k h
      · have hstep : recordIndices info sup i (chunkIdx :: rest) srcs =
            recordIndices info sup (i + 1) rest
              (appendClaim srcs sid
                ⟨match sup.segment with | some seg => seg.text | none => "",
                  (sup.confidence_scores.getD []).getD i ((1 : ℚ) / 2)⟩) := by
          simp [recordIndices, hlk]
        rw [hstep]
        exact ih (i + 1) _ k (by rw [isSome_alookup_appendClaim]; exact h)

theorem recordIndices_extends (info : List (Nat × String))
    (sup : GroundingSupport) :
    ∀ (cis : List Nat) (i : Nat) (srcs : List (String × Source)),
      sourcesExtends srcs (recordIndices info sup i cis srcs) := by
  intro cis
  induction cis with
  | nil => intro i srcs; exact sourcesExtends_refl _
  | cons chunkIdx rest ih =>
      intro i srcs
      rcases hlk : alookup chunkIdx info with _ | sid
      · have hstep : recordIndices info sup i (chunkIdx :: rest) srcs =
            recordIndices info sup (i + 1) rest srcs := by
          simp [recordIndices, hlk]
        rw [hstep]
        exact ih (i + 1) srcs
      · have hstep : recordIndices info sup i (chunkIdx :: rest) srcs =
            recordIndices info sup (i + 1) rest
              (appendClaim srcs sid
                ⟨match sup.segment with | some seg => seg.text | none => "",
                  (sup.confidence_scores.getD []).getD i ((1 : ℚ) / 2)⟩) := by
          simp [recordIndices, hlk]
        rw [hstep]
        exact sourcesExtends_trans (sourcesExtends_appendClaim _ _ _) (ih (i + 1) _)

theorem recordIndicesE_ok (info : List (Nat × String))
    (sup : GroundingSupport) :
    ∀ (cis : List Nat) (i : Nat) (srcs : List (String × Source)),
      (∀ p ∈ info, (alookup p.2 srcs).isSome = true) →
      recordIndicesE info sup i cis srcs =
        .ok (recordIndices info sup i cis srcs) := by
  intro cis
  induction cis with
  | nil => intro i srcs _; rfl
  | cons chunkIdx rest ih =>
      intro i srcs hinfo
      rcases hlk : alookup chunkIdx info with _ | sid
      · have h1 : recordIndicesE info sup i (chunkIdx :: rest) srcs =
            recordIndicesE info sup (i + 1) rest srcs := by
          simp [recordIndicesE, hlk]
        have h2 : recordIndices info sup i (chunkIdx :: rest) srcs =
            recordIndices info sup (i + 1) rest srcs := by
          simp [recordIndices, hlk]
        rw [h1, h2]
        exact ih (i + 1) srcs hinfo
      · have hsome : (alookup sid srcs).isSome = true :=
          hinfo (chunkIdx, sid) (alookup_mem hlk)
        obtain ⟨src, hsrc⟩ := Option.isSome_iff_exists.mp hsome
        simp only [recordIndicesE, recordIndices, hlk, appendClaimE, hsrc]
        refine ih (i + 1) _ ?_
        intro p hp
        rw [isSome_alookup_appendClaim]
        exact hinfo p hp

theorem recordSupports_isSome (info : List (Nat × String)) :
    ∀ (sups : List GroundingSupport) (srcs : List (String × Source)) (k : String),
      (alookup k srcs).isSome = true →
      (alookup k (recordSupports info sups srcs)).isSome = true := by
  intro sups
  induction sups with
  | nil => intro srcs k h; exact h
  | cons sup rest ih =>
      intro srcs k h
      exact ih _ k (recordIndices_isSome info sup _ 0 srcs k h)

theorem recordSupports_extends (info : List (Nat × String)) :
    ∀ (sups : List GroundingSupport) (srcs : List (String × Source)),
      sourcesExtends srcs (recordSupports info sups srcs) := by
  intro sups
  induction sups with
  | nil => intro srcs; exact sourcesExtends_refl _
  | cons sup rest ih =>
      intro srcs
      exact sourcesExtends_trans (recordIndices_extends info sup _ 0 srcs) (ih _)

theorem recordSupportsE_ok (info : List (Nat × String)) :
    ∀ (sups : List GroundingSupport) (srcs : List (String × Source)),
      (∀ p ∈ info, (alookup p.2 srcs).isSome = true) →
      recordSupportsE info sups srcs = .ok (recordSupports info sups srcs) := by
  intro sups
  induction sups with
  | nil => intro srcs _; rfl
  | cons sup rest ih =>
      intro srcs hinfo
      have h1 : recordSupportsE info (sup :: rest) srcs =
          match recordIndicesE info sup 0 (sup.grounding_chunk_indices.getD []) srcs with
          | .ok srcs' => recordSupportsE info rest srcs'
          | .error msg => .error msg := rfl
      rw [h1, recordIndicesE_ok info sup _ 0 srcs hinfo]
      have h2 : recordSupports info (sup :: rest) srcs =
          recordSupports info rest
            (recordIndices info sup 0 (sup.grounding_chunk_indices.getD []) srcs) := rfl
      rw [h2]
      refine ih _ ?_
      intro p hp
      exact recordIndices_isSome info sup _ 0 srcs p.2 (hinfo p hp)

theorem processEvent_invariants (st : Scan) (e : Event) :
    st.urlMap <+: (processEvent st e).urlMap ∧
    sourcesExtends st.srcs (processEvent st e).srcs ∧
    (st.counter = st.urlMap.length + 1 →
      (processEvent st e).counter = (processEvent st e).urlMap.length + 1 ∧
      (UmNumbered st.urlMap → UmNumbered (processEvent st e).urlMap)) := by
  rcases hmd : e.grounding_metadata with _ | md
  · have hstep : processEvent st e = st := by simp [processEvent, hmd]
    rw [hstep]
    exact ⟨List.prefix_rfl, sourcesExtends_refl _, fun hc => ⟨hc, fun hn => hn⟩⟩
  · by_cases hempty : md.grounding_chunks.isEmpty
    · have hstep : processEvent st e = st := by simp [processEvent, hmd, hempty]
      rw [hstep]
      exact ⟨List.prefix_rfl, sourcesExtends_refl _, fun hc => ⟨hc, fun hn => hn⟩⟩
    · obtain ⟨p1, p2, p3⟩ := scanChunks_invariants md.grounding_chunks
        { st with chunksInfo := [] } 0
      rcases hsup : md.grounding_supports with _ | sups
      · have hstep : processEvent st e =
            { scanChunks { st with chunksInfo := [] } 0 md.grounding_chunks with
              srcs := (scanChunks { st with chunksInfo := [] } 0
                md.grounding_chunks).srcs } := by
          simp [processEvent, hmd, hempty, hsup]
        rw [hstep]
        exact ⟨p1, p2, fun hc => p3 hc⟩
      · by_cases hse : sups.isEmpty
        · have hstep : processEvent st e =
              { scanChunks { st with chunksInfo := [] } 0 md.grounding_chunks with
                srcs := (scanChunks { st with chunksInfo := [] } 0
                  md.grounding_chunks).srcs } := by
            simp [processEvent, hmd, hempty, hsup, hse]
          rw [hstep]
          exact ⟨p1, p2, fun hc => p3 hc⟩
        · have hstep : processEvent st e =
              { scanChunks { st with chunksInfo := [] } 0 md.grounding_chunks with
                srcs := recordSupports
                  (scanChunks { st with chunksInfo := [] } 0
                    md.grounding_chunks).chunksInfo sups
                  (scanChunks { st with chunksInfo := [] } 0
                    md.grounding_chunks).srcs } := by
            simp [processEvent, hmd, hempty, hsup, hse]
          rw [hstep]
          exact ⟨p1, sourcesExtends_trans p2 (recordSupports_extends _ _ _),
            fun hc => p3 hc⟩

theorem processEvent_consistent (st : Scan) (e : Event)
    (hm : MapsConsistent st.urlMap st.srcs) :
    MapsConsistent (processEvent st e).urlMap (processEvent st e).srcs := by
  rcases hmd : e.grounding_metadata with _ | md
  · have hstep : processEvent st e = st := by simp [processEvent, hmd]
    rw [hstep]
    exact hm
  · by_cases hempty : md.grounding_chunks.isEmpty
    · have hstep : processEvent st e = st := by simp [processEvent, hmd, hempty]
      rw [hstep]
      exact hm
    · obtain ⟨hm', hinfo'⟩ := scanChunks_consistent md.grounding_chunks
        { st with chunksInfo := [] } 0 hm (by intro p hp; simp at hp)
      rcases hsup : md.grounding_supports with _ | sups
      · have hstep : processEvent st e =
            { scanChunks { st with chunksInfo := [] } 0 md.grounding_chunks with
              srcs := (scanChunks { st with chunksInfo := [] } 0
                md.grounding_chunks).srcs } := by
          simp [processEvent, hmd, hempty, hsup]
        rw [hstep]
        exact hm'
      · by_cases hse : sups.isEmpty
        · have hstep : processEvent st e =
              { scanChunks { st with chunksInfo := [] } 0 md.grounding_chunks with
                srcs := (scanChunks { st with chunksInfo := [] } 0
                  md.grounding_chunks).srcs } := by
            simp [processEvent, hmd, hempty, hsup, hse]
          rw [hstep]
          exact hm'
        · have hstep : processEvent st e =
              { scanChunks { st with chunksInfo := [] } 0 md.grounding_chunks with
                srcs := recordSupports
                  (scanChunks { st with chunksInfo := [] } 0
                    md.grounding_chunks).chunksInfo sups
                  (scanChunks { st with chunksInfo := [] } 0
                    md.grounding_chunks).srcs } := by
            simp [processEvent, hmd, hempty, hsup, hse]
          rw [hstep]
          intro url sid h
          exact recordSupports_isSome _ sups _ sid (hm' url sid h)

theorem processEventE_ok (st : Scan) (e : Event)
    (hm : MapsConsistent st.urlMap st.srcs) :
    processEventE st e = .ok (processEvent st e) := by
  rcases hmd : e.grounding_metadata with _ | md
  · simp [processEventE, processEvent, hmd]
  · by_cases hempty : md.grounding_chunks.isEmpty
    · simp [processEventE, processEvent, hmd, hempty]
    · obtain ⟨hm', hinfo'⟩ := scanChunks_consistent md.grounding_chunks
        { st with chunksInfo := [] } 0 hm (by intro p hp; simp at hp)
      rcases hsup : md.grounding_supports with _ | sups
      · simp [processEventE, processEvent, hmd, hempty, hsup]
      · by_cases hse : sups.isEmpty
        · simp [processEventE, processEvent, hmd, hempty, hsup, hse]
        · have hrec := recordSupportsE_ok
            (scanChunks { st with chunksInfo := [] } 0 md.grounding_chunks).chunksInfo
            sups
            (scanChunks { st with chunksInfo := [] } 0 md.grounding_chunks).srcs
            hinfo'
          simp [processEventE, processEvent, hmd, hempty, hsup, hse, hrec]

theorem processEvents_invariants :
    ∀ (events : List Event) (st : Scan),
      st.urlMap <+: (processEvents st events).urlMap ∧
      sourcesExtends st.srcs (processEvents st events).srcs ∧
      (st.counter = st.urlMap.length + 1 →
        (processEvents st events).counter =
          (processEvents st events).urlMap.length + 1 ∧
        (UmNumbered st.urlMap → UmNumbered (processEvents st events).urlMap)) := by
  intro events
  induction events with
  | nil =>
      intro st
      exact ⟨List.prefix_rfl, sourcesExtends_refl _, fun hc => ⟨hc, fun hn => hn⟩⟩
  | cons e rest ih =>
      intro st
      obtain ⟨p1, p2, p3⟩ := processEvent_invariants st e
      obtain ⟨q1, q2, q3⟩ := ih (processEvent st e)
      have hstep : processEvents st (e :: rest) =
          processEvents (processEvent st e) rest := rfl
      rw [hstep]
      refine ⟨p1.trans q1, sourcesExtends_trans p2 q2, fun hc => ?_⟩
      obtain ⟨c1, n1⟩ := p3 hc
      obtain ⟨c2, n2⟩ := q3 c1
      exact ⟨c2, fun hn => n2 (n1 hn)⟩

theorem processEvents_consistent :
    ∀ (events : List Event) (st : Scan),
      MapsConsistent st.urlMap st.srcs →
      MapsConsistent (processEvents st events).urlMap
        (processEvents st events).srcs := by
  intro events
  induction events with
  | nil => intro st hm; exact hm
  | cons e rest ih =>
      intro st hm
      exact ih (processEvent st e) (processEvent_consistent st e hm)

theorem processEventsE_ok :
    ∀ (events : List Event) (st : Scan),
      MapsConsistent st.urlMap st.srcs →
      processEventsE st events = .ok (processEvents st events) := by
  intro events
  induction events with
  | nil => intro st _; rfl
  | cons e rest ih =>
      intro st hm
      have h1 : processEventsE st (e :: rest) =
          match processEventE st e with
          | .ok st' => processEventsE st' rest
          | .error msg => .error msg := rfl
      rw [h1, processEventE_ok st e hm]
      exact ih (processEvent st e) (processEvent_consistent st e hm)

theorem collect_invariants (st : LedgerState) (events : List Event) :
    st.url_to_short_id <+:
      (collect_research_sources_callback st events).url_to_short_id ∧
    sourcesExtends st.sources
      (collect_research_sources_callback st events).sources ∧
    (UmNumbered st.url_to_short_id →
      UmNumbered (collect_research_sources_callback st events).url_to_short_id) := by
  obtain ⟨p1, p2, p3⟩ := processEvents_invariants events
    ⟨st.url_to_short_id, st.sources, st.url_to_short_id.length + 1, []⟩
  exact ⟨p1, p2, fun hn => (p3 rfl).2 hn⟩

theorem collect_consistent (st : LedgerState) (events : List Event)
    (hm : MapsConsistent st.url_to_short_id st.sources) :
    MapsConsistent (collect_research_sources_callback st events).url_to_short_id
      (collect_research_sources_callback st events).sources :=
  processEvents_consistent events
    ⟨st.url_to_short_id, st.sources, st.url_to_short_id.length + 1, []⟩ hm

theorem collectE_ok (st : LedgerState) (events : List Event)
    (hm : MapsConsistent st.url_to_short_id st.sources) :
    collect_research_sources_callbackE st events =
      .ok (collect_research_sources_callback st events) := by
  unfold collect_research_sources_callbackE collect_research_sources_callback
  rw [processEventsE_ok events
    ⟨st.url_to_short_id, st.sources, st.url_to_short_id.length + 1, []⟩ hm]

theorem runCalls_numbered :
    ∀ (calls : List (List Event)) (st : LedgerState),
      UmNumbered st.url_to_short_id →
      UmNumbered (runCalls st calls).url_to_short_id := by
  intro calls
  induction calls with
  | nil => intro st hn; exact hn
  | cons evs rest ih =>
      intro st hn
      exact ih _ ((collect_invariants st evs).2.2 hn)

theorem runCalls_additive :
    ∀ (calls : List (List Event)) (st : LedgerState),
      st.url_to_short_id <+: (runCalls st calls).url_to_short_id ∧
      sourcesExtends st.sources (runCalls st calls).sources := by
  intro calls
  induction calls with
  | nil => intro st; exact ⟨List.prefix_rfl, sourcesExtends_refl _⟩
  | cons evs rest ih =>
      intro st
      obtain ⟨p1, p2, _⟩ := collect_invariants st evs
      obtain ⟨q1, q2⟩ := ih (collect_research_sources_callback st evs)
      exact ⟨p1.trans q1, sourcesExtends_trans p2 q2⟩

theorem runCalls_consistent :
    ∀ (calls : List (List Event)) (st : LedgerState),
      MapsConsistent st.url_to_short_id st.sources →
      MapsConsistent (runCalls st calls).url_to_short_id
        (runCalls st calls).sources := by
  intro calls
  induction calls with
  | nil => intro st hm; exact hm
  | cons evs rest ih =>
      intro st hm
      exact ih _ (collect_consistent st evs hm)

theorem runCallsE_ok :
    ∀ (calls : List (List Event)) (st : LedgerState),
      MapsConsistent st.url_to_short_id st.sources →
      runCallsE st calls = .ok (runCalls st calls) := by
  intro calls
  induction calls with
  | nil => intro st _; rfl
  | cons evs rest ih =>
      intro st hm
      have h1 : runCallsE st (evs :: rest) =
          match collect_research_sources_callbackE st evs with
          | .ok st' => runCallsE st' rest
          | .error msg => .error msg := rfl
      rw [h1, collectE_ok st evs hm]
      exact ih _ (collect_consistent st evs hm)

-- ## C4: first-seen short-id order and strict additivity

/-- C4: across every sequence of ledger-recording calls in one session,
short ids are assigned in strict first-seen-url order — the `i`-th entry of
the insertion-ordered `url_to_short_id` (the `i`-th distinct url) carries
`src-(i+1)` — and the ledger is strictly additive: later calls only extend
`url_to_short_id` at the end (never remove or renumber), the short id looked
up by any already-recorded url never changes, and every stored Source
survives with identifying fields intact and its claim list only appended to. -/
theorem short_id_first_seen_order_and_additivity :
    (∀ (calls : List (List Event)) (i : Nat)
        (h : i < (runCalls emptyLedger calls).url_to_short_id.length),
      (((runCalls emptyLedger calls).url_to_short_id)[i]).2 =
        "src-" ++ toString (i + 1)) ∧
    (∀ (st : LedgerState) (laterCalls : List (List Event)),
      st.url_to_short_id <+: (runCalls st laterCalls).url_to_short_id ∧
      (∀ url sid, alookup url st.url_to_short_id = some sid →
        alookup url (runCalls st laterCalls).url_to_short_id = some sid) ∧
      sourcesExtends st.sources (runCalls st laterCalls).sources) := by
  constructor
  · intro calls
    exact runCalls_numbered calls emptyLedger (by intro i hi; simp [emptyLedger] at hi)
  · intro st laterCalls
    obtain ⟨p1, p2⟩ := runCalls_additive laterCalls st
    exact ⟨p1, fun url sid h => alookup_of_prefix p1 h, p2⟩

/-- Witness for `short_id_first_seen_order_and_additivity` at a concrete
two-call session recording two distinct urls. -/
theorem short_id_first_seen_order_witness :
    ((runCalls emptyLedger
      [[⟨some ⟨[⟨some ⟨"https://a.example", "A", "a.example"⟩⟩], none⟩⟩],
       [⟨some ⟨[⟨some ⟨"https://b.example", "B", "b.example"⟩⟩], none⟩⟩]]).url_to_short_id).map
        Prod.snd = ["src-1", "src-2"] := by
  have h := short_id_first_seen_order_and_additivity.1
    [[⟨some ⟨[⟨some ⟨"https://a.example", "A", "a.example"⟩⟩], none⟩⟩],
     [⟨some ⟨[⟨some ⟨"https://b.example", "B", "b.example"⟩⟩], none⟩⟩]]
  have h0 := h 0 (by decide)
  have h1 := h 1 (by decide)
  rfl

-- ## C8: malformed grounding input degrades gracefully

theorem recordIndices_nil_info (sup : GroundingSupport) :
    ∀ (cis : List Nat) (i : Nat) (srcs : List (String × Source)),
      recordIndices [] sup i cis srcs = srcs := by
  intro cis
  induction cis with
  | nil => intro i srcs; rfl
  | cons chunkIdx rest ih =>
      intro i srcs
      have hstep : recordIndices [] sup i (chunkIdx :: rest) srcs =
          recordIndices [] sup (i + 1) rest srcs := by
        simp [recordIndices, alookup]
      rw [hstep]
      exact ih (i + 1) srcs

theorem recordSupports_nil_info :
    ∀ (sups : List GroundingSupport) (srcs : List (String × Source)),
      recordSupports [] sups srcs = srcs := by
  intro sups
  induction sups with
  | nil => intro srcs; rfl
  | cons sup rest ih =>
      intro srcs
      have hstep : recordSupports [] (sup :: rest) srcs =
          recordSupports [] rest
            (recordIndices [] sup 0 (sup.grounding_chunk_indices.getD []) srcs) :=
        rfl
      rw [hstep, recordIndices_nil_info]
      exact ih srcs

/-- C8: the ledger-recording operation completes without raising on every
grounding input, malformed or partial included — the fallible rendering (in
which the source's `sources[short_id]` access can raise KeyError) always
returns `ok` with the total result; an event without grounding metadata and a
chunk without a web reference contribute nothing (supports naming them are
skipped); a support with no confidence scores records the default confidence
`0.5`, no segment yields the empty `text_segment`, and a support referencing
an unresolved chunk index records nothing. -/
theorem ledger_graceful_on_malformed_input :
    (∀ calls : List (List Event),
      runCallsE emptyLedger calls = .ok (runCalls emptyLedger calls)) ∧
    (∀ st : LedgerState, collect_research_sources_callback st [⟨none⟩] = st) ∧
    (∀ (st : LedgerState) (sups : List GroundingSupport),
      collect_research_sources_callback st
        [⟨some ⟨[⟨none⟩], some sups⟩⟩] = st) ∧
    (∀ u t d, ((alookup "src-1" (collect_research_sources_callback emptyLedger
        [⟨some ⟨[⟨some ⟨u, t, d⟩⟩], some [⟨none, some [0], none⟩]⟩⟩]).sources).map
          (·.supported_claims)) = some [⟨"", (1 : ℚ)/2⟩]) ∧
    (∀ u t d, ((alookup "src-1" (collect_research_sources_callback emptyLedger
        [⟨some ⟨[⟨some ⟨u, t, d⟩⟩], some [⟨some [], some [5], some ⟨"x"⟩⟩]⟩⟩]).sources).map
          (·.supported_claims)) = some []) := by
  refine ⟨?_, ?_, ?_, ?_, ?_⟩
  · intro calls
    refine runCallsE_ok calls emptyLedger ?_
    intro url sid h
    simp [emptyLedger, alookup] at h
  · intro st
    rfl
  · intro st sups
    rcases sups with _ | ⟨sup, rest⟩
    · rfl
    · have hstep : collect_research_sources_callback st
          [⟨some ⟨[⟨none⟩], some (sup :: rest)⟩⟩] =
          ⟨st.url_to_short_id, recordSupports [] (sup :: rest) st.sources⟩ := rfl
      rw [hstep, recordSupports_nil_info]
  · intro u t d
    rfl
  · intro u t d
    rfl

-- ## C3: recording the same url twice within one session

/-- A refiner event carrying one web grounding chunk and one support for it. -/
def webEvent (u t d s : String) (conf : ℚ) : Event :=
  ⟨some ⟨[⟨some ⟨u, t, d⟩⟩], some [⟨some [conf], some [0], some ⟨s⟩⟩]⟩⟩

/-- C3 counterexample: two recording calls in one session, the same url with
one new supported claim each time.  The final snapshot does map the url to the
single source `src-1`, but that source carries three claims, not two: the
second call re-iterates the whole session event history (the source walks
`session.events`), so the first call's claim is appended a second time. -/
theorem same_url_two_calls_counterexample :
    alookup "https://a.example"
      (runSession emptyLedger []
        [[webEvent "https://a.example" "A" "a.example" "first claim" ((9 : ℚ)/10)],
         [webEvent "https://a.example" "A" "a.example" "second claim" ((8 : ℚ)/10)]]).url_to_short_id
      = some "src-1" ∧
    ((alookup "src-1"
      (runSession emptyLedger []
        [[webEvent "https://a.example" "A" "a.example" "first claim" ((9 : ℚ)/10)],
         [webEvent "https://a.example" "A" "a.example" "second claim" ((8 : ℚ)/10)]]).sources).map
        fun s => s.supported_claims.length) = some 3 ∧
    ¬ ((alookup "src-1"
      (runSession emptyLedger []
        [[webEvent "https://a.example" "A" "a.example" "first claim" ((9 : ℚ)/10)],
         [webEvent "https://a.example" "A" "a.example" "second claim" ((8 : ℚ)/10)]]).sources).map
        fun s => s.supported_claims.length) = some 2 :=
  ⟨rfl, rfl, by decide⟩

/-- C3 amended: for two recording calls in one session in which the same url
appears with one new supported claim each time, the final snapshot holds
exactly one Source for that url with short id `src-1`, reusing the existing
short id rather than duplicating the Source; its claim list, however, holds
three entries — the first call's claim twice and the new claim once — because
each call replays the full accumulated session event history. -/
theorem same_url_one_source_claims_replayed :
    ∀ (s1 s2 : String) (c1 c2 : ℚ),
      runSession emptyLedger []
        [[webEvent "https://a.example" "A" "a.example" s1 c1],
         [webEvent "https://a.example" "A2" "a2.example" s2 c2]] =
      ⟨[("https://a.example", "src-1")],
       [("src-1", ⟨"src-1", "A", "https://a.example", "a.example",
          [⟨s1, c1⟩, ⟨s1, c1⟩, ⟨s2, c2⟩]⟩)]⟩ := by
  intro s1 s2 c1 c2
  rfl

-- ## C5: the confidence fallback is positional

/-- A refiner event with three web chunks and one support record with the
given chunk indices and confidence scores. -/
def threeChunkEvent (indices : List Nat) (scores : List ℚ) (s : String) : Event :=
  ⟨some ⟨[⟨some ⟨"https://u0.example", "U0", "u0.example"⟩⟩,
          ⟨some ⟨"https://u1.example", "U1", "u1.example"⟩⟩,
          ⟨some ⟨"https://u2.example", "U2", "u2.example"⟩⟩],
    some [⟨some scores, some indices, some ⟨s⟩⟩]⟩⟩

/-- C5 counterexample: a support referencing chunk index 2 while
`confidence_scores` has length 1 records the single score (`0.9`), not `0.5`
— the 0.5 fallback keys on the position inside `grounding_chunk_indices`, not
on the chunk index. -/
theorem confidence_for_chunk_two_counterexample :
    ((alookup "src-3" (collect_research_sources_callback emptyLedger
        [threeChunkEvent [2] [(9 : ℚ)/10] "claim"]).sources).map
        (·.supported_claims)) = some [⟨"claim", (9 : ℚ)/10⟩] ∧
    (9 : ℚ)/10 ≠ (1 : ℚ)/2 :=
  ⟨rfl, by norm_num⟩

/-- C5 amended: when a support supplies fewer confidence scores than chunk
indices, the claim recorded for the index at list position `i` gets the score
at position `i` when one exists and `0.5` otherwise.  In particular, with
indices `[0, 1, 2]` and a single score the chunk-2 claim (position 2) gets
`0.5`, while with indices `[2]` alone the chunk-2 claim (position 0) gets the
single score. -/
theorem confidence_fallback_is_positional :
    ∀ (q : ℚ) (s : String),
      ((alookup "src-1" (collect_research_sources_callback emptyLedger
          [threeChunkEvent [0, 1, 2] [q] s]).sources).map
          (·.supported_claims)) = some [⟨s, q⟩] ∧
      ((alookup "src-2" (collect_research_sources_callback emptyLedger
          [threeChunkEvent [0, 1, 2] [q] s]).sources).map
          (·.supported_claims)) = some [⟨s, (1 : ℚ)/2⟩] ∧
      ((alookup "src-3" (collect_research_sources_callback emptyLedger
          [threeChunkEvent [0, 1, 2] [q] s]).sources).map
          (·.supported_claims)) = some [⟨s, (1 : ℚ)/2⟩] ∧
      ((alookup "src-3" (collect_research_sources_callback emptyLedger
          [threeChunkEvent [2] [q] s]).sources).map
          (·.supported_claims)) = some [⟨s, q⟩] := by
  intro q s
  exact ⟨rfl, rfl, rfl, rfl⟩
